import Mathlib

/-!
Verification of the push-receiver-go MCS client core.

This file shallowly embeds the Go sources of the repository:
* `internal/constants/constants.go` — protocol constants;
* `internal/parser` (`parser.go`) — the incremental MCS wire parser,
  `EncodeVarint`, `Parser.readVarint`, `Parser.ReadMessage`,
  `Parser.unmarshalByTag`, `Parser.createEmptyMessage`;
* `pkg/client` (`client.go`) — `NewClient`, `Client.buildLoginRequest`,
  `Client.connect`, `Client.handleMessage`, `Client.handleDataMessage`,
  `Client.retry`.

Machine integers are modelled as `Nat` with explicit `% 2 ^ 32` where Go's
`uint32` truncation matters.  Byte streams are `List Nat`.  Fallible code
returns `Except` / `Option`.  The external protobuf library
(`proto.Marshal` / `proto.Unmarshal`) is treated as an abstract parameter.
-/

namespace PushReceiver

/-! ## Constants (`internal/constants/constants.go`) -/

abbrev MCSVersion : Nat := 41

-- Processing states (iota block)
abbrev MCSVersionTagAndSize : Nat := 0
abbrev MCSTagAndSize : Nat := 1
abbrev MCSSize : Nat := 2
abbrev MCSProtoBytes : Nat := 3

abbrev VersionPacketLen : Nat := 1
abbrev TagPacketLen : Nat := 1
abbrev SizePacketLenMax : Nat := 5

abbrev HeartbeatPingTag : Nat := 0
abbrev HeartbeatAckTag : Nat := 1
abbrev LoginRequestTag : Nat := 2
abbrev LoginResponseTag : Nat := 3
abbrev CloseTag : Nat := 4
abbrev MessageStanzaTag : Nat := 5
abbrev PresenceStanzaTag : Nat := 6
abbrev IqStanzaTag : Nat := 7
abbrev DataMessageStanzaTag : Nat := 8
abbrev BatchPresenceStanzaTag : Nat := 9
abbrev StreamErrorStanzaTag : Nat := 10
abbrev HttpRequestTag : Nat := 11
abbrev HttpResponseTag : Nat := 12
abbrev BindAccountRequestTag : Nat := 13
abbrev BindAccountResponseTag : Nat := 14
abbrev TalkMetadataTag : Nat := 15
abbrev NumProtoTypes : Nat := 16

/-! ## Wire codec (`internal/parser/parser.go`) -/

/-- Error kinds of the parser.  `ioError` stands for any error returned by
`readBytes` / `io.ReadFull` (in this embedding: the input list is too
short); the remaining constructors correspond to the `fmt.Errorf` calls of
`parser.go`. -/
inductive ParseErr where
  | ioError
  | varintTooLong
  | unexpectedVersion (v : Nat)
  | unknownTag (t : Nat)
  | malformedBody
  | unexpectedState (s : Nat)
deriving DecidableEq, Repr

/-- Loop of `EncodeVarint` (parser.go): `binary.PutUvarint` writes
`byte(x) | 0x80` while `x >= 0x80`, shifting `x` right by 7 each time, and
finally writes `byte(x)`; `byte(x)` truncates to the low 8 bits, hence the
`% 256`.  The argument is a `uint32`, so the loop runs at most
`binary.MaxVarintLen32 = 5` times; the structural `fuel` argument is that
bound and is never exhausted for `x < 2 ^ 32`. -/
def encodeVarintLoop (fuel x : Nat) : List Nat :=
  match fuel with
  | 0 => []
  | fuel + 1 =>
    if x < 128 then [x % 256]
    else ((x % 256) ||| 128) :: encodeVarintLoop fuel (x >>> 7)

/-- Go `EncodeVarint` (parser.go): encodes a `uint32` as a base-128 varint. -/
def EncodeVarint (x : Nat) : List Nat :=
  encodeVarintLoop 5 x

/-- Loop body of `Parser.readVarint` (parser.go).  The Go code keeps a
`uint32 value`, a shift and a byte counter; each iteration (while
`bytesRead < SizePacketLenMax`) reads one byte `b`, does
`value |= uint32(b&0x7F) << shift`, returns on `b&0x80 == 0`, else
continues with `shift + 7`.  The `uint32` shift result is truncated, hence
`% 2 ^ 32`.  After five continuation bytes the loop exits and the function
fails with the `"varint too long"` error, reading no further byte. -/
def readVarintAux (value shift bytesRead : Nat) : List Nat → Except ParseErr (Nat × Nat × List Nat)
  | [] =>
    if bytesRead < SizePacketLenMax then .error .ioError else .error .varintTooLong
  | b :: rest =>
    if bytesRead < SizePacketLenMax then
      let value' := value ||| ((b &&& 127) <<< shift) % 2 ^ 32
      if b &&& 128 = 0 then .ok (value', bytesRead + 1, rest)
      else readVarintAux value' (shift + 7) (bytesRead + 1) rest
    else .error .varintTooLong

/-- Go `Parser.readVarint` (parser.go): returns the decoded value, the number
of bytes consumed, and the remaining stream. -/
def readVarint (input : List Nat) : Except ParseErr (Nat × Nat × List Nat) :=
  readVarintAux 0 0 0 input

/-! ## Proto registry and stream parser (`internal/parser/parser.go`) -/

/-- The protobuf value decoded for a frame.  The Go parser allocates a
value of the tag-specific `pb` type and fills it with `proto.Unmarshal`
(or leaves it default-initialised for `size == 0`); the payload contents
are opaque to the parser, so this embedding records only which type the
switch selected. -/
inductive ProtoObj where
  | heartbeatPing
  | heartbeatAck
  | loginRequest
  | loginResponse
  | close
  | iqStanza
  | dataMessageStanza
  | streamErrorStanza
deriving DecidableEq, Repr

/-- The `switch tag` shared by `Parser.unmarshalByTag` and
`Parser.createEmptyMessage`: the tag-to-proto-type table.  Exactly the
eight listed tags select a type; every other tag (including the reserved
tags 5, 6, 9 and 11–15 of constants.go) falls into the `default` branch,
modelled as `none`. -/
def protoTypeForTag (tag : Nat) : Option ProtoObj :=
  if tag = HeartbeatPingTag then some .heartbeatPing
  else if tag = HeartbeatAckTag then some .heartbeatAck
  else if tag = LoginRequestTag then some .loginRequest
  else if tag = LoginResponseTag then some .loginResponse
  else if tag = CloseTag then some .close
  else if tag = IqStanzaTag then some .iqStanza
  else if tag = DataMessageStanzaTag then some .dataMessageStanza
  else if tag = StreamErrorStanzaTag then some .streamErrorStanza
  else none

/-- Go `Parser.unmarshalByTag` (parser.go): pick the proto type for the tag
(`default` case: the `"unknown message tag"` error), then run
`proto.Unmarshal` on the body.  The protobuf library is external; it is
modelled by the parameter `unmarshalOk`, which says whether the given
bytes unmarshal successfully into the type selected for the tag. -/
def unmarshalByTag (unmarshalOk : Nat → List Nat → Bool) (tag : Nat) (data : List Nat) :
    Except ParseErr ProtoObj :=
  match protoTypeForTag tag with
  | none => .error (.unknownTag tag)
  | some msg => if unmarshalOk tag data then .ok msg else .error .malformedBody

/-- Go `Parser.createEmptyMessage` (parser.go): return a default-initialised
value for the tag; `default` case: the `"unknown message tag"` error. -/
def createEmptyMessage (tag : Nat) : Except ParseErr ProtoObj :=
  match protoTypeForTag tag with
  | none => .error (.unknownTag tag)
  | some msg => .ok msg

/-- A parsed message (`parser.Message`): tag byte plus decoded object. -/
structure PMessage where
  tag : Nat
  object : ProtoObj
deriving DecidableEq, Repr

/-- Parser state (`parser.Parser`).  The byte reader is externalised: each
reading function takes the remaining input `List Nat` and returns what is
left.  The unused Go fields `data` and `sizePacketSoFar` are omitted. -/
structure Parser where
  state : Nat
  messageTag : Nat
  messageSize : Nat
  handshakeComplete : Bool
deriving DecidableEq, Repr

/-- Go `NewParser` (parser.go): starts in the version state. -/
def NewParser : Parser :=
  { state := MCSVersionTagAndSize, messageTag := 0, messageSize := 0,
    handshakeComplete := false }

/-- Go `Parser.readBytes` (parser.go): read exactly `n` bytes
(`io.ReadFull`); fails if the stream is shorter. -/
def readBytes (n : Nat) (input : List Nat) : Except ParseErr (List Nat × List Nat) :=
  if n ≤ input.length then .ok (input.take n, input.drop n) else .error .ioError

/-- Go `Parser.onGotVersion` (parser.go): read one byte, accept version 41
(`MCSVersion`) or 38, then move to the tag state. -/
def onGotVersion (p : Parser) (input : List Nat) : Except ParseErr (Parser × List Nat) :=
  match readBytes VersionPacketLen input with
  | .error e => .error e
  | .ok (buf, rest) =>
    let version := buf.headD 0
    if version ≠ MCSVersion ∧ version ≠ 38 then .error (.unexpectedVersion version)
    else .ok ({ p with state := MCSTagAndSize }, rest)

/-- Go `Parser.onGotMessageTag` (parser.go): read the tag byte, move to the
size state. -/
def onGotMessageTag (p : Parser) (input : List Nat) : Except ParseErr (Parser × List Nat) :=
  match readBytes TagPacketLen input with
  | .error e => .error e
  | .ok (buf, rest) =>
    .ok ({ p with messageTag := buf.headD 0, state := MCSSize }, rest)

/-- Go `Parser.onGotMessageSize` (parser.go): read the varint size and move
to the body state (the Go code sets `MCSProtoBytes` in both branches of
its `if messageSize > 0`). -/
def onGotMessageSize (p : Parser) (input : List Nat) : Except ParseErr (Parser × List Nat) :=
  match readVarint input with
  | .error e => .error e
  | .ok (size, _, rest) =>
    .ok ({ p with messageSize := size, state := MCSProtoBytes }, rest)

/-- Go `Parser.onGotMessageBytes` (parser.go): read `messageSize` bytes and
`unmarshalByTag`, or `createEmptyMessage` for an empty body; record
handshake completion on a `LoginResponse`; reset tag/size and return to
the tag state. -/
def onGotMessageBytes (unmarshalOk : Nat → List Nat → Bool) (p : Parser) (input : List Nat) :
    Except ParseErr (PMessage × Parser × List Nat) :=
  let decoded : Except ParseErr (ProtoObj × List Nat) :=
    if p.messageSize > 0 then
      match readBytes p.messageSize input with
      | .error e => .error e
      | .ok (buf, rest) =>
        match unmarshalByTag unmarshalOk p.messageTag buf with
        | .error e => .error e
        | .ok msg => .ok (msg, rest)
    else
      match createEmptyMessage p.messageTag with
      | .error e => .error e
      | .ok msg => .ok (msg, input)
  match decoded with
  | .error e => .error e
  | .ok (protoMsg, rest) =>
    let hs := if p.messageTag = LoginResponseTag then true else p.handshakeComplete
    let tag := p.messageTag
    .ok ({ tag := tag, object := protoMsg },
         { p with messageTag := 0, messageSize := 0, state := MCSTagAndSize,
                  handshakeComplete := hs },
         rest)

/-- Go `Parser.ReadMessage` (parser.go): the `for`/`switch` loop.  Each state
handler advances `state` to its successor
(`MCSVersionTagAndSize → MCSTagAndSize → MCSSize → MCSProtoBytes`), and
only `MCSProtoBytes` returns, so the loop is the chain below, entered at
the current state; any other state value is the
`"unexpected parser state"` error. -/
def ReadMessage (unmarshalOk : Nat → List Nat → Bool) (p : Parser) (input : List Nat) :
    Except ParseErr (PMessage × Parser × List Nat) :=
  if p.state = MCSVersionTagAndSize then
    match onGotVersion p input with
    | .error e => .error e
    | .ok (p, input) =>
      match onGotMessageTag p input with
      | .error e => .error e
      | .ok (p, input) =>
        match onGotMessageSize p input with
        | .error e => .error e
        | .ok (p, input) => onGotMessageBytes unmarshalOk p input
  else if p.state = MCSTagAndSize then
    match onGotMessageTag p input with
    | .error e => .error e
    | .ok (p, input) =>
      match onGotMessageSize p input with
      | .error e => .error e
      | .ok (p, input) => onGotMessageBytes unmarshalOk p input
  else if p.state = MCSSize then
    match onGotMessageSize p input with
    | .error e => .error e
    | .ok (p, input) => onGotMessageBytes unmarshalOk p input
  else if p.state = MCSProtoBytes then
    onGotMessageBytes unmarshalOk p input
  else
    .error (.unexpectedState p.state)

/-! ## Client (`pkg/client/client.go`) -/

/-- The fields of `pb.DataMessageStanza` observed by the client.
`appData` is the repeated `AppData{Key, Value}` list before the client's
map conversion. -/
structure DataMessageStanza where
  persistentId : String
  sender : String          -- proto field `from` (a Lean keyword)
  category : String
  appData : List (String × String)
  rawData : List Nat
deriving DecidableEq, Repr

/-- The decoded object attached to a message, as seen by the client.
`Client.handleMessage` inspects it only through the type assertion
`msg.Object.(*pb.DataMessageStanza)`; any other proto type is `otherObj`. -/
inductive ClientObj where
  | dataMessage (d : DataMessageStanza)
  | otherObj
deriving DecidableEq, Repr

/-- A message as dispatched by `Client.handleMessage`
(`parser.Message`: tag plus object). -/
structure CMessage where
  tag : Nat
  object : ClientObj
deriving DecidableEq, Repr

/-- Reasons attached to `EventError` events (the `error` values built with
`fmt.Errorf` in client.go). -/
inductive ErrorReason where
  | serverClose            -- "server sent close message"
  | ackWriteFailed         -- "failed to send heartbeat ack"
deriving DecidableEq, Repr

/-- The typed events of client.go (`EventType` constants).  Data and
notification events carry the stanza whose fields
(persistentId/from/category/appData/rawData) populate the emitted map;
heartbeat events carry `time.Now()` in Go, which is dropped here. -/
inductive Event where
  | connect
  | disconnect
  | dataReceived (d : DataMessageStanza)
  | notificationReceived (d : DataMessageStanza)
  | error (r : ErrorReason)
  | heartbeatPing
  | heartbeatAck
deriving DecidableEq, Repr

/-- Client state (`client.Client`).  The TLS connection is externalised:
`conn = none` models a nil `conn`, `conn = some b` a connection whose
writes succeed iff `b`.  The event channel is modelled by the event lists
the step functions return; `parser`, `eventChan`, `closeChan`, `mu`,
`debugMode` and `readTimeout` have no bearing on the claims below. -/
structure ClientState where
  androidID : String
  securityToken : String
  persistentIDs : List String
  retryCount : Nat
  maxRetryTimeout : Nat
  conn : Option Bool
  closed : Bool
deriving DecidableEq, Repr

/-- Go `NewClient` (client.go): a nil `persistentIDs` slice (here `none`) is
replaced by the empty slice; `maxRetryTimeout` is 15; the remaining
modelled fields start at their Go zero values. -/
def NewClient (androidID securityToken : String) (persistentIDs : Option (List String)) :
    ClientState :=
  { androidID := androidID
    securityToken := securityToken
    persistentIDs := match persistentIDs with
      | none => []
      | some ids => ids
    retryCount := 0
    maxRetryTimeout := 15
    conn := none
    closed := false }

/-- Go `Client.handleDataMessage` (client.go): drop the stanza silently if
its `persistentId` is already in `persistentIDs`; otherwise append the id
and emit `EventNotificationReceived` when the `appData` map contains the
key `"crypto-key"`, else `EventDataReceived`. -/
def handleDataMessage (c : ClientState) (msg : DataMessageStanza) :
    ClientState × List Event :=
  let persistentID := msg.persistentId
  if c.persistentIDs.contains persistentID then
    (c, [])
  else
    let c := { c with persistentIDs := c.persistentIDs ++ [persistentID] }
    if msg.appData.any (fun kv => kv.1 = "crypto-key") then
      (c, [.notificationReceived msg])
    else
      (c, [.dataReceived msg])

/-- Go `Client.sendHeartbeatAck` (client.go): nothing happens on a nil
connection; a successful write emits `EventHeartbeatAck`; a failed write
emits `EventError` (marshalling an empty `pb.HeartbeatAck` cannot fail). -/
def sendHeartbeatAck (c : ClientState) : List Event :=
  match c.conn with
  | none => []
  | some true => [.heartbeatAck]
  | some false => [.error .ackWriteFailed]

/-- Go `Client.handleMessage` (client.go): the `switch msg.Tag` dispatcher.
Returns the updated client state and the events sent on the event
channel, in order.  Tags with no `case` (including `StreamErrorStanzaTag
= 10`) reach the `default` branch, which only debug-logs. -/
def handleMessage (c : ClientState) (msg : CMessage) : ClientState × List Event :=
  if msg.tag = LoginResponseTag then
    ({ c with persistentIDs := [], retryCount := 0 }, [.connect])
  else if msg.tag = DataMessageStanzaTag then
    match msg.object with
    | .dataMessage dataMsg => handleDataMessage c dataMsg
    | .otherObj => (c, [])
  else if msg.tag = HeartbeatPingTag then
    (c, .heartbeatPing :: sendHeartbeatAck c)
  else if msg.tag = HeartbeatAckTag then
    (c, [])
  else if msg.tag = CloseTag then
    (c, [.error .serverClose])
  else if msg.tag = IqStanzaTag then
    (c, [])
  else
    (c, [])

/-- The dispatch part of `Client.listen` (client.go): each successfully
parsed message is passed to `handleMessage`; the loop itself never stops
because of a message's content, so processing a message list is the fold
of `handleMessage`, concatenating the emitted events. -/
def processMessages (c : ClientState) : List CMessage → ClientState × List Event
  | [] => (c, [])
  | msg :: msgs =>
    let step := handleMessage c msg
    let restRun := processMessages step.1 msgs
    (restRun.1, step.2 ++ restRun.2)

/-- Go `Client.retry` (client.go), up to its reconnection attempt: on a
closed client nothing happens; otherwise `retryCount` is incremented and
the client sleeps `min(retryCount, maxRetryTimeout)` seconds before
dialing again.  Returns the new state and the slept seconds. -/
def retryStep (c : ClientState) : Option (ClientState × Nat) :=
  if c.closed then none
  else
    let retryCount := c.retryCount + 1
    let timeout := if retryCount > c.maxRetryTimeout then c.maxRetryTimeout else retryCount
    some ({ c with retryCount := retryCount }, timeout)

/-- The sleeps of `n` consecutive failed reconnection attempts: the
seconds slept by each `retry` call when every reconnection fails (the
`go c.retry()` tail call). -/
def retrySleeps (c : ClientState) : Nat → List Nat
  | 0 => []
  | n + 1 =>
    match retryStep c with
    | none => []
    | some (c', t) => t :: retrySleeps c' n

/-! ## Login request (`Client.buildLoginRequest`, `Client.connect`) -/

/-- Go `strconv.ParseUint(s, 10, 64)`: decimal digits only, non-empty, must
fit in 64 bits. -/
def parseUint64 (s : String) : Option Nat :=
  if s.data ≠ [] ∧ s.data.all Char.isDigit then
    let v := s.data.foldl (fun acc c => acc * 10 + (c.toNat - 48)) 0
    if v < 2 ^ 64 then some v else none
  else none

/-- One lowercase hex digit (`strconv.FormatUint(·, 16)` digit set). -/
def hexDigit (n : Nat) : Char :=
  if n < 10 then Char.ofNat (48 + n) else Char.ofNat (87 + n)

/-- Digits of `strconv.FormatUint(v, 16)`.  The argument is a `uint64`,
so at most 16 hex digits are produced; the structural `fuel` is that
bound and is never exhausted for `v < 2 ^ 64`. -/
def hexDigits (fuel v : Nat) : List Char :=
  match fuel with
  | 0 => []
  | fuel + 1 =>
    if v < 16 then [hexDigit v]
    else hexDigits fuel (v / 16) ++ [hexDigit (v % 16)]

/-- Go `strconv.FormatUint(v, 16)`: lowercase hex, no prefix. -/
def formatHex (v : Nat) : String :=
  ⟨hexDigits 16 v⟩

/-- Go `pb.LoginRequest_ANDROID_ID` (the only auth service the client uses). -/
inductive AuthService where
  | androidId
deriving DecidableEq, Repr

/-- Go `pb.ClientEvent` (sent empty by the client). -/
structure ClientEvent where
deriving DecidableEq, Repr

/-- The `pb.LoginRequest` fields set by `Client.buildLoginRequest`;
`setting` models `[]*pb.Setting` as name/value pairs. -/
structure LoginRequest where
  adaptiveHeartbeat : Bool
  authService : AuthService
  authToken : String
  id : String
  domain : String
  deviceId : String
  networkType : Int
  resource : String
  user : String
  useRmq2 : Bool
  setting : List (String × String)
  clientEvent : List ClientEvent
  receivedPersistentId : List String
deriving DecidableEq, Repr

/-- The `pb.LoginRequest` literal of `Client.buildLoginRequest`
(client.go): fails when `strconv.ParseUint(c.androidID, 10, 64)` fails. -/
def mkLoginRequest (c : ClientState) : Option LoginRequest :=
  match parseUint64 c.androidID with
  | none => none
  | some androidIDInt =>
    some
      { adaptiveHeartbeat := false
        authService := .androidId
        authToken := c.securityToken
        id := "chrome-63.0.3234.0"
        domain := "mcs.android.com"
        deviceId := "android-" ++ formatHex androidIDInt
        networkType := 1
        resource := c.androidID
        user := c.androidID
        useRmq2 := true
        setting := [("new_vc", "1")]
        clientEvent := []
        receivedPersistentId := c.persistentIDs }

/-- Go `Client.buildLoginRequest` (client.go): marshal the request (the
protobuf serialiser is the abstract parameter `marshal`) and frame it as
`[MCSVersion][LoginRequestTag][EncodeVarint(uint32(len(data)))][data]`. -/
def buildLoginRequest (marshal : LoginRequest → List Nat) (c : ClientState) :
    Option (List Nat) :=
  match mkLoginRequest c with
  | none => none
  | some loginReq =>
    let data := marshal loginReq
    some (MCSVersion :: LoginRequestTag :: (EncodeVarint (data.length % 2 ^ 32) ++ data))

/-- The application bytes `Client.connect` (client.go) writes to the
connection, in order: after the TLS dial (which writes no application
bytes) the one and only write is the login buffer. -/
def connectWrites (marshal : LoginRequest → List Nat) (c : ClientState) :
    Option (List (List Nat)) :=
  match buildLoginRequest marshal c with
  | none => none
  | some loginBuf => some [loginBuf]

/-! ## Event counting helpers -/

/-- Number of data/notification events carrying a given `persistentId`. -/
def countPid (p : String) (evs : List Event) : Nat :=
  (evs.filter fun e =>
    match e with
    | .dataReceived d => d.persistentId == p
    | .notificationReceived d => d.persistentId == p
    | _ => false).length

/-- Number of `Connect` events. -/
def countConnect (evs : List Event) : Nat :=
  (evs.filter fun e =>
    match e with
    | .connect => true
    | _ => false).length

/-- The value a varint decoder is specified to accumulate from the bytes
starting at byte index `k`: the low 7 bits of each byte, shifted by 7
times its index. -/
def accumValue : List Nat → Nat → Nat
  | [], _ => 0
  | b :: t, k => (b &&& 127) * 2 ^ (7 * k) + accumValue t (k + 1)

/-! ## Sanity checks on concrete inputs -/

example : readVarint [129, 1, 99] = .ok (129, 2, [99]) := rfl
example : readVarint [255, 255, 255, 255, 255, 0] = .error .varintTooLong := rfl
example : EncodeVarint 300 = [172, 2] := rfl
example : readVarint (EncodeVarint 300 ++ [7]) = .ok (300, 2, [7]) := rfl

example :
    ReadMessage (fun _ _ => true) NewParser [41, 3, 0] =
      .ok (⟨3, .loginResponse⟩,
           { state := 1, messageTag := 0, messageSize := 0, handshakeComplete := true },
           []) := rfl

example :
    ReadMessage (fun _ _ => true) NewParser [41, 5, 0] = .error (.unknownTag 5) := rfl

example : parseUint64 "1" = some 1 := rfl
example : parseUint64 "" = none := rfl
example : parseUint64 "12x" = none := rfl
example : formatHex 255 = "ff" := rfl

example : mkLoginRequest (NewClient "10" "tok" none) =
    some { adaptiveHeartbeat := false, authService := .androidId, authToken := "tok",
           id := "chrome-63.0.3234.0", domain := "mcs.android.com", deviceId := "android-a",
           networkType := 1, resource := "10", user := "10", useRmq2 := true,
           setting := [("new_vc", "1")], clientEvent := [], receivedPersistentId := [] } := rfl

/-! ## Arithmetic helper lemmas for the varint proofs -/

/-- Oring a number below `2 ^ n` with a multiple of `2 ^ n` is addition:
the bit ranges are disjoint. -/
lemma lor_shiftLeft_eq_add {a : Nat} (b n : Nat) (ha : a < 2 ^ n) :
    a ||| (b <<< n) = a + b * 2 ^ n := by
  apply Nat.eq_of_testBit_eq
  intro i
  rcases Nat.lt_or_ge i n with hi | hi
  · have h1 : (a + b * 2 ^ n).testBit i = ((a + b * 2 ^ n) % 2 ^ n).testBit i := by
      rw [Nat.testBit_mod_two_pow]
      simp [hi]
    rw [Nat.testBit_lor, Nat.testBit_shiftLeft, h1, Nat.add_mul_mod_self_right,
      Nat.mod_eq_of_lt ha]
    have : ¬ (i ≥ n) := by omega
    simp [this]
  · have hax : a.testBit i = false :=
      Nat.testBit_eq_false_of_lt (lt_of_lt_of_le ha (Nat.pow_le_pow_right (by norm_num) hi))
    have hdiv : (a + b * 2 ^ n) >>> n = b := by
      rw [Nat.shiftRight_eq_div_pow, Nat.add_mul_div_right _ _ (Nat.pos_pow_of_pos n (by norm_num)),
        Nat.div_eq_of_lt ha]
      omega
    have h2 : (a + b * 2 ^ n).testBit i = b.testBit (i - n) := by
      have hsr := Nat.testBit_shiftRight (a + b * 2 ^ n) (i := n) (j := i - n)
      rw [hdiv] at hsr
      rw [hsr]
      congr 1
      omega
    rw [Nat.testBit_lor, Nat.testBit_shiftLeft, h2, hax]
    simp [hi]

/-- The accumulation step of `readVarint` as the Go `uint32` computes it:
`value |= uint32(c) << m` truncated to 32 bits equals the truncated sum,
provided `value` fits below the shift position. -/
lemma lor_shiftLeft_mod_eq_add_mod {S : Nat} (c m : Nat) (hS : S < 2 ^ m) (hm : m ≤ 32) :
    S ||| ((c <<< m) % 2 ^ 32) = (S + c * 2 ^ m) % 2 ^ 32 := by
  have hsplit : (2 : Nat) ^ 32 = 2 ^ (32 - m) * 2 ^ m := by
    rw [← pow_add]
    congr 1
    omega
  have hmod : (c <<< m) % 2 ^ 32 = (c % 2 ^ (32 - m)) <<< m := by
    rw [Nat.shiftLeft_eq, Nat.shiftLeft_eq, hsplit, Nat.mul_mod_mul_right]
  have hc : c * 2 ^ m = c / 2 ^ (32 - m) * 2 ^ 32 + c % 2 ^ (32 - m) * 2 ^ m := by
    conv_lhs => rw [← Nat.div_add_mod c (2 ^ (32 - m))]
    rw [hsplit]
    ring
  have hlt : S + c % 2 ^ (32 - m) * 2 ^ m < 2 ^ 32 := by
    have h1 : c % 2 ^ (32 - m) < 2 ^ (32 - m) :=
      Nat.mod_lt _ (Nat.pos_pow_of_pos _ (by norm_num))
    have h2 : c % 2 ^ (32 - m) * 2 ^ m ≤ (2 ^ (32 - m) - 1) * 2 ^ m :=
      Nat.mul_le_mul_right _ (by omega)
    have h3 : (2 ^ (32 - m) - 1) * 2 ^ m = 2 ^ 32 - 2 ^ m := by
      rw [Nat.sub_mul, one_mul, ← hsplit]
    rw [h3] at h2
    have h4 : (2 : Nat) ^ m ≤ 2 ^ 32 := Nat.pow_le_pow_right (by norm_num) hm
    omega
  rw [hmod, lor_shiftLeft_eq_add _ _ hS, hc]
  rw [show S + (c / 2 ^ (32 - m) * 2 ^ 32 + c % 2 ^ (32 - m) * 2 ^ m)
        = S + c % 2 ^ (32 - m) * 2 ^ m + c / 2 ^ (32 - m) * 2 ^ 32 by ring]
  rw [Nat.add_mul_mod_self_right, Nat.mod_eq_of_lt hlt]

/-- Low seven bits: `b &&& 0x7F = b % 128`. -/
lemma land_127 (b : Nat) : b &&& 127 = b % 128 := by
  have := Nat.and_pow_two_sub_one_eq_mod b 7
  norm_num at this
  exact this

/-- A byte below 128 has the high bit clear. -/
lemma land_128_eq_zero {b : Nat} (hb : b < 128) : b &&& 128 = 0 := by
  have h7 : b.testBit 7 = false := Nat.testBit_eq_false_of_lt (by norm_num [hb])
  have h128 : (128 : Nat) = 2 ^ 7 := by norm_num
  rw [h128, Nat.and_two_pow, h7]
  simp

/-- A continuation byte `byte(x) | 0x80` has the high bit set. -/
lemma encByte_land_128 (x : Nat) : ((x % 256) ||| 128) &&& 128 ≠ 0 := by
  intro h
  have h128 : (128 : Nat) = 2 ^ 7 := by norm_num
  have h7 : (((x % 256) ||| 128) &&& 128).testBit 7 = true := by
    rw [Nat.testBit_land, Nat.testBit_lor, h128, Nat.testBit_two_pow]
    simp
  rw [h, Nat.zero_testBit] at h7
  exact Bool.false_ne_true h7

/-- The low seven bits of a continuation byte `byte(x) | 0x80` are the low
seven bits of `x`. -/
lemma encByte_land_127 (x : Nat) : ((x % 256) ||| 128) &&& 127 = x % 128 := by
  have h : ((x % 2 ^ 8) ||| 2 ^ 7) &&& (2 ^ 7 - 1) = x % 2 ^ 7 := by
    apply Nat.eq_of_testBit_eq
    intro i
    rw [Nat.testBit_land, Nat.testBit_lor, Nat.testBit_two_pow_sub_one, Nat.testBit_two_pow,
      Nat.testBit_mod_two_pow, Nat.testBit_mod_two_pow]
    rcases Nat.lt_or_ge i 7 with hi | hi
    · have h1 : 7 ≠ i := by omega
      have h2 : i < 8 := by omega
      simp [hi, h1, h2]
    · have h1 : ¬ (i < 7) := by omega
      simp [h1]
  norm_num at h
  exact h
/-! ## Unfolding lemmas for `readVarintAux` -/

/-- One decoding step on a byte with the high bit clear: return. -/
lemma readVarintAux_stop {b : Nat} (value shift k : Nat) (input : List Nat)
    (hb : b &&& 128 = 0) (hk : k < 5) :
    readVarintAux value shift k (b :: input) =
      .ok (value ||| ((b &&& 127) <<< shift) % 2 ^ 32, k + 1, input) := by
  simp only [readVarintAux, SizePacketLenMax]
  rw [if_pos hk, if_pos hb]

/-- One decoding step on a byte with the high bit set: continue with the
shift advanced by 7. -/
lemma readVarintAux_cont {b : Nat} (value shift k : Nat) (input : List Nat)
    (hb : b &&& 128 ≠ 0) (hk : k < 5) :
    readVarintAux value shift k (b :: input) =
      readVarintAux (value ||| ((b &&& 127) <<< shift) % 2 ^ 32) (shift + 7) (k + 1) input := by
  simp only [readVarintAux, SizePacketLenMax]
  rw [if_pos hk, if_neg hb]

/-- After five continuation bytes the decoder fails without looking at the
stream. -/
lemma readVarintAux_tooLong (value shift k : Nat) (input : List Nat) (hk : ¬ k < 5) :
    readVarintAux value shift k input = .error .varintTooLong := by
  cases input <;> simp only [readVarintAux, SizePacketLenMax] <;> rw [if_neg hk]

/-- Decoding a final (high-bit-clear) byte `x` accumulates `x` at the
current shift position. -/
lemma readVarintAux_final {x : Nat} (k value : Nat) (rest : List Nat)
    (hx : x < 128) (hk : k ≤ 4) (hv : value < 2 ^ (7 * k)) :
    readVarintAux value (7 * k) k (x :: rest) =
      .ok ((value + x * 2 ^ (7 * k)) % 2 ^ 32, k + 1, rest) := by
  rw [readVarintAux_stop value (7 * k) k rest (land_128_eq_zero hx) (by omega)]
  have h127 : x &&& 127 = x := by
    rw [land_127]
    omega
  rw [h127, lor_shiftLeft_mod_eq_add_mod x (7 * k) hv (by omega)]

/-- Round-trip of the encoder loop against the decoder, generalised over
the byte position `k` and the `uint32` accumulator `value`. -/
lemma readVarintAux_encodeLoop (fuel : Nat) :
    ∀ (x k value : Nat) (rest : List Nat),
      x < 2 ^ (7 * fuel + 7) →
      k + fuel ≤ 4 →
      value < 2 ^ (7 * k) →
      readVarintAux value (7 * k) k (encodeVarintLoop (fuel + 1) x ++ rest) =
        .ok ((value + x * 2 ^ (7 * k)) % 2 ^ 32,
             k + (encodeVarintLoop (fuel + 1) x).length, rest) := by
  induction fuel with
  | zero =>
    intro x k value rest hx hk hv
    have hx128 : x < 128 := by
      have h7 : (2 : Nat) ^ (7 * 0 + 7) = 128 := by norm_num
      omega
    rw [show encodeVarintLoop 1 x = [x % 256] from by simp [encodeVarintLoop, hx128]]
    simp only [List.cons_append, List.nil_append, List.length_cons, List.length_nil]
    rw [Nat.mod_eq_of_lt (show x < 256 by omega)]
    exact readVarintAux_final k value rest hx128 (by omega) hv
  | succ fuel ih =>
    intro x k value rest hx hk hv
    by_cases hx128 : x < 128
    · rw [show encodeVarintLoop (fuel + 1 + 1) x = [x % 256] from by
        simp [encodeVarintLoop, hx128]]
      simp only [List.cons_append, List.nil_append, List.length_cons, List.length_nil]
      rw [Nat.mod_eq_of_lt (show x < 256 by omega)]
      exact readVarintAux_final k value rest hx128 (by omega) hv
    · have hunf : encodeVarintLoop (fuel + 1 + 1) x =
          ((x % 256) ||| 128) :: encodeVarintLoop (fuel + 1) (x >>> 7) := by
        simp [encodeVarintLoop, hx128]
      rw [hunf]
      simp only [List.cons_append, List.length_cons]
      rw [readVarintAux_cont value (7 * k) k _ (encByte_land_128 x) (by omega)]
      rw [encByte_land_127]
      have hstep : value ||| ((x % 128) <<< (7 * k)) % 2 ^ 32
          = value + (x % 128) * 2 ^ (7 * k) := by
        rw [lor_shiftLeft_mod_eq_add_mod (x % 128) (7 * k) hv (by omega)]
        apply Nat.mod_eq_of_lt
        have h1 : (x % 128) * 2 ^ (7 * k) ≤ 127 * 2 ^ (7 * k) :=
          Nat.mul_le_mul_right _ (by omega)
        have h3 : (2 : Nat) ^ (7 * k) * 128 ≤ 2 ^ 32 := by
          have : (2 : Nat) ^ (7 * k) * 128 = 2 ^ (7 * k + 7) := by
            rw [pow_add]
            norm_num
          rw [this]
          exact Nat.pow_le_pow_right (by norm_num) (by omega)
        nlinarith [hv, h1]
      rw [hstep]
      have hshift : 7 * k + 7 = 7 * (k + 1) := by ring
      rw [hshift]
      have hv' : value + (x % 128) * 2 ^ (7 * k) < 2 ^ (7 * (k + 1)) := by
        have h1 : (x % 128) * 2 ^ (7 * k) ≤ 127 * 2 ^ (7 * k) :=
          Nat.mul_le_mul_right _ (by omega)
        have h2 : (2 : Nat) ^ (7 * (k + 1)) = 2 ^ (7 * k) * 128 := by
          rw [show 7 * (k + 1) = 7 * k + 7 by ring, pow_add]
          norm_num
        nlinarith [hv, h1]
      have hx' : x >>> 7 < 2 ^ (7 * fuel + 7) := by
        rw [Nat.shiftRight_eq_div_pow]
        apply Nat.div_lt_of_lt_mul
        calc x < 2 ^ (7 * (fuel + 1) + 7) := hx
        _ = 2 ^ 7 * 2 ^ (7 * fuel + 7) := by
            rw [← pow_add]
            congr 1
            ring
      rw [ih (x >>> 7) (k + 1) _ rest hx' (by omega) hv']
      have hsum : (x >>> 7) * 2 ^ (7 * (k + 1)) = 128 * (x / 128) * 2 ^ (7 * k) := by
        rw [Nat.shiftRight_eq_div_pow, show 7 * (k + 1) = 7 * k + 7 by ring, pow_add]
        norm_num
        ring
      have hx128' : x % 128 * 2 ^ (7 * k) + 128 * (x / 128) * 2 ^ (7 * k)
          = x * 2 ^ (7 * k) := by
        rw [← Nat.add_mul, Nat.mod_add_div]
      have hval : value + x % 128 * 2 ^ (7 * k) + (x >>> 7) * 2 ^ (7 * (k + 1))
          = value + x * 2 ^ (7 * k) := by
        rw [hsum]
        omega
      rw [hval]
      have hlen : k + 1 + (encodeVarintLoop (fuel + 1) (x >>> 7)).length
          = k + ((encodeVarintLoop (fuel + 1) (x >>> 7)).length + 1) := by omega
      rw [hlen]

/-- Decoding a run of high-bit-set bytes followed by one high-bit-clear
byte accumulates the low 7 bits of each byte at its position and stops
right after the terminating byte. -/
lemma readVarintAux_highBytes :
    ∀ (bs : List Nat) (k S last : Nat) (rest : List Nat),
      k + bs.length ≤ 4 →
      (∀ b ∈ bs, b &&& 128 ≠ 0) →
      last &&& 128 = 0 →
      S < 2 ^ (7 * k) →
      readVarintAux S (7 * k) k (bs ++ last :: rest) =
        .ok ((S + accumValue (bs ++ [last]) k) % 2 ^ 32, k + bs.length + 1, rest) := by
  intro bs
  induction bs with
  | nil =>
    intro k S last rest hk hbs hlast hS
    simp only [List.length_nil] at hk
    simp only [List.nil_append, List.length_nil]
    rw [readVarintAux_stop S (7 * k) k rest hlast (by omega)]
    rw [lor_shiftLeft_mod_eq_add_mod (last &&& 127) (7 * k) hS (by omega)]
    simp [accumValue]
  | cons b t ih =>
    intro k S last rest hk hbs hlast hS
    have hb : b &&& 128 ≠ 0 := hbs b (by simp)
    have ht : ∀ x ∈ t, x &&& 128 ≠ 0 := fun x hx => hbs x (by simp [hx])
    simp only [List.length_cons] at hk
    simp only [List.cons_append, List.length_cons, accumValue, List.append_eq]
    rw [readVarintAux_cont S (7 * k) k _ hb (by omega)]
    have hS' : S ||| ((b &&& 127) <<< (7 * k)) % 2 ^ 32
        = S + (b &&& 127) * 2 ^ (7 * k) := by
      rw [lor_shiftLeft_mod_eq_add_mod (b &&& 127) (7 * k) hS (by omega)]
      apply Nat.mod_eq_of_lt
      have h1 : (b &&& 127) * 2 ^ (7 * k) ≤ 127 * 2 ^ (7 * k) :=
        Nat.mul_le_mul_right _ (Nat.and_le_right)
      have h3 : (2 : Nat) ^ (7 * k) * 128 ≤ 2 ^ 32 := by
        have h2 : (2 : Nat) ^ (7 * k) * 128 = 2 ^ (7 * k + 7) := by
          rw [pow_add]
          norm_num
        rw [h2]
        exact Nat.pow_le_pow_right (by norm_num) (by omega)
      nlinarith [hS, h1]
    rw [hS']
    have hv' : S + (b &&& 127) * 2 ^ (7 * k) < 2 ^ (7 * (k + 1)) := by
      have h1 : (b &&& 127) * 2 ^ (7 * k) ≤ 127 * 2 ^ (7 * k) :=
        Nat.mul_le_mul_right _ (Nat.and_le_right)
      have h2 : (2 : Nat) ^ (7 * (k + 1)) = 2 ^ (7 * k) * 128 := by
        rw [show 7 * (k + 1) = 7 * k + 7 by ring, pow_add]
        norm_num
      nlinarith [hS, h1]
    rw [show 7 * k + 7 = 7 * (k + 1) by ring]
    rw [ih (k + 1) _ last rest (by omega) ht hlast hv']
    have hassoc : S + (b &&& 127) * 2 ^ (7 * k) + accumValue (t ++ [last]) (k + 1)
        = S + ((b &&& 127) * 2 ^ (7 * k) + accumValue (t ++ [last]) (k + 1)) := by omega
    have hlen2 : k + 1 + t.length + 1 = k + (t.length + 1) + 1 := by omega
    rw [hassoc, hlen2]

/-- Five high-bit-set bytes exhaust the decoder: it fails with the
varint-too-long error whatever follows them in the stream. -/
lemma readVarintAux_allHigh :
    ∀ (bs : List Nat) (k S shift : Nat) (input : List Nat),
      k + bs.length = 5 →
      (∀ b ∈ bs, b &&& 128 ≠ 0) →
      readVarintAux S shift k (bs ++ input) = .error .varintTooLong := by
  intro bs
  induction bs with
  | nil =>
    intro k S shift input hk hbs
    simp only [List.nil_append]
    exact readVarintAux_tooLong S shift k input (by simp at hk; omega)
  | cons b t ih =>
    intro k S shift input hk hbs
    have hb : b &&& 128 ≠ 0 := hbs b (by simp)
    have ht : ∀ x ∈ t, x &&& 128 ≠ 0 := fun x hx => hbs x (by simp [hx])
    simp only [List.cons_append]
    rw [readVarintAux_cont S shift k _ hb (by simp at hk; omega)]
    exact ih (k + 1) _ _ input (by simp at hk; omega) ht

/-! ## Helper lemmas about the client event stream -/

lemma countPid_append (p : String) (a b : List Event) :
    countPid p (a ++ b) = countPid p a + countPid p b := by
  simp [countPid, List.filter_append]

lemma countConnect_append (a b : List Event) :
    countConnect (a ++ b) = countConnect a + countConnect b := by
  simp [countConnect, List.filter_append]

lemma countPid_sendHeartbeatAck (p : String) (c : ClientState) :
    countPid p (sendHeartbeatAck c) = 0 := by
  unfold sendHeartbeatAck
  cases c.conn with
  | none => simp [countPid]
  | some b => cases b <;> simp [countPid]

lemma countConnect_sendHeartbeatAck (c : ClientState) :
    countConnect (sendHeartbeatAck c) = 0 := by
  unfold sendHeartbeatAck
  cases c.conn with
  | none => simp [countConnect]
  | some b => cases b <;> simp [countConnect]

/-- Any message other than a `LoginResponse` either emits no
data/notification event for `p` and leaves membership of `p` in the dedup
list unchanged, or emits exactly one such event, in which case `p` was not
in the list before and is afterwards. -/
lemma handleMessage_pid_invariant (p : String) (c : ClientState) (m : CMessage)
    (h : m.tag ≠ LoginResponseTag) :
    (countPid p (handleMessage c m).2 = 0 ∧
      (handleMessage c m).1.persistentIDs.contains p = c.persistentIDs.contains p)
    ∨ (countPid p (handleMessage c m).2 = 1 ∧ c.persistentIDs.contains p = false ∧
      (handleMessage c m).1.persistentIDs.contains p = true) := by
  unfold handleMessage
  rw [if_neg h]
  by_cases h8 : m.tag = DataMessageStanzaTag
  · rw [if_pos h8]
    cases hobj : m.object with
    | otherObj => exact Or.inl (by simp [countPid])
    | dataMessage d =>
      unfold handleDataMessage
      by_cases hc : d.persistentId ∈ c.persistentIDs
      · exact Or.inl (by simp [hc, countPid])
      · by_cases hdp : d.persistentId = p
        · right
          subst hdp
          by_cases hck : d.appData.any (fun kv => kv.1 = "crypto-key") = true
          · simp [hc, hck, countPid]
          · simp only [Bool.not_eq_true] at hck
            simp [hc, hck, countPid]
        · left
          by_cases hck : d.appData.any (fun kv => kv.1 = "crypto-key") = true
          · simp [hc, hck, countPid, hdp, Ne.symm hdp]
          · simp only [Bool.not_eq_true] at hck
            simp [hc, hck, countPid, hdp, Ne.symm hdp]
  · rw [if_neg h8]
    by_cases h0 : m.tag = HeartbeatPingTag
    · rw [if_pos h0]
      refine Or.inl ⟨?_, rfl⟩
      have : countPid p (Event.heartbeatPing :: sendHeartbeatAck c)
          = countPid p (sendHeartbeatAck c) := by simp [countPid]
      rw [this, countPid_sendHeartbeatAck]
    · rw [if_neg h0]
      by_cases h1 : m.tag = HeartbeatAckTag
      · rw [if_pos h1]
        exact Or.inl (by simp [countPid])
      · rw [if_neg h1]
        by_cases h4 : m.tag = CloseTag
        · rw [if_pos h4]
          exact Or.inl (by simp [countPid])
        · rw [if_neg h4]
          by_cases h7 : m.tag = IqStanzaTag
          · rw [if_pos h7]
            exact Or.inl (by simp [countPid])
          · rw [if_neg h7]
            exact Or.inl (by simp [countPid])

/-- Bound on emitted events for a given persistent id over a stretch of
messages containing no `LoginResponse`. -/
lemma processMessages_countPid (p : String) :
    ∀ (msgs : List CMessage) (c : ClientState),
      (∀ m ∈ msgs, m.tag ≠ LoginResponseTag) →
      countPid p (processMessages c msgs).2 ≤
        (if c.persistentIDs.contains p then 0 else 1) := by
  intro msgs
  induction msgs with
  | nil =>
    intro c hno
    simp only [processMessages, countPid, List.filter_nil, List.length_nil]
    split <;> omega
  | cons m msgs ih =>
    intro c hno
    have hm : m.tag ≠ LoginResponseTag := hno m (by simp)
    have hrest : ∀ x ∈ msgs, x.tag ≠ LoginResponseTag := fun x hx => hno x (by simp [hx])
    simp only [processMessages, countPid_append]
    rcases handleMessage_pid_invariant p c m hm with ⟨hcount, hmem⟩ | ⟨hcount, hbefore, hafter⟩
    · have hb := ih (handleMessage c m).1 hrest
      rw [hmem] at hb
      omega
    · have hb := ih (handleMessage c m).1 hrest
      rw [hafter] at hb
      rw [hbefore]
      simp only [if_true] at hb
      simp only [Bool.false_eq_true, if_false]
      omega

/-- The dispatcher `handleMessage` emits exactly one `Connect` event for a
`LoginResponse` and none otherwise. -/
lemma countConnect_handleMessage (c : ClientState) (m : CMessage) :
    countConnect (handleMessage c m).2 =
      (if m.tag = LoginResponseTag then 1 else 0) := by
  unfold handleMessage
  by_cases h3 : m.tag = LoginResponseTag
  · rw [if_pos h3, if_pos h3]
    simp [countConnect]
  · rw [if_neg h3, if_neg h3]
    by_cases h8 : m.tag = DataMessageStanzaTag
    · rw [if_pos h8]
      cases m.object with
      | otherObj => simp [countConnect]
      | dataMessage d =>
        unfold handleDataMessage
        by_cases hc : d.persistentId ∈ c.persistentIDs
        · simp [hc, countConnect]
        · by_cases hck : d.appData.any (fun kv => kv.1 = "crypto-key") = true
          · simp [hc, hck, countConnect]
          · simp only [Bool.not_eq_true] at hck
            simp [hc, hck, countConnect]
    · rw [if_neg h8]
      by_cases h0 : m.tag = HeartbeatPingTag
      · rw [if_pos h0]
        have : countConnect (Event.heartbeatPing :: sendHeartbeatAck c)
            = countConnect (sendHeartbeatAck c) := by simp [countConnect]
        rw [this, countConnect_sendHeartbeatAck]
      · rw [if_neg h0]
        by_cases h1 : m.tag = HeartbeatAckTag
        · rw [if_pos h1]
          simp [countConnect]
        · rw [if_neg h1]
          by_cases h4 : m.tag = CloseTag
          · rw [if_pos h4]
            simp [countConnect]
          · rw [if_neg h4]
            by_cases h7 : m.tag = IqStanzaTag
            · rw [if_pos h7]
              simp [countConnect]
            · rw [if_neg h7]
              simp [countConnect]

/-- Over any message list, the number of `Connect` events equals the
number of `LoginResponse` messages. -/
lemma processMessages_countConnect :
    ∀ (msgs : List CMessage) (c : ClientState),
      countConnect (processMessages c msgs).2 =
        (msgs.filter fun m => m.tag == LoginResponseTag).length := by
  intro msgs
  induction msgs with
  | nil =>
    intro c
    simp [processMessages, countConnect]
  | cons m msgs ih =>
    intro c
    simp only [processMessages, countConnect_append, countConnect_handleMessage, ih]
    by_cases h3 : m.tag = LoginResponseTag
    · simp [h3, List.filter_cons]
      omega
    · simp [h3, List.filter_cons]

/-- The backoff sequence produced by consecutive failed retries. -/
lemma retrySleeps_formula :
    ∀ (n : Nat) (c : ClientState), c.closed = false → c.maxRetryTimeout = 15 →
      retrySleeps c n = (List.range n).map (fun i => min (c.retryCount + 1 + i) 15) := by
  intro n
  induction n with
  | zero => intro c h1 h2; simp [retrySleeps]
  | succ n ih =>
    intro c h1 h2
    have hiff : (if c.retryCount + 1 > 15 then 15 else c.retryCount + 1)
        = min (c.retryCount + 1) 15 := by
      split_ifs with h <;> omega
    have hstep : retryStep c =
        some ({ c with retryCount := c.retryCount + 1 }, min (c.retryCount + 1) 15) := by
      simp [retryStep, h1, h2, hiff]
    simp only [retrySleeps, hstep]
    have hih := ih { c with retryCount := c.retryCount + 1 } (by simp [h1]) (by simp [h2])
    rw [show ({ c with retryCount := c.retryCount + 1 } : ClientState).retryCount
        = c.retryCount + 1 from rfl] at hih
    rw [hih, List.range_succ_eq_map, List.map_cons, List.map_map]
    have hfun : ((fun i => min (c.retryCount + 1 + i) 15) ∘ Nat.succ)
        = fun i => min (c.retryCount + 1 + 1 + i) 15 := by
      funext i
      simp only [Function.comp_apply]
      omega
    rw [hfun]


/-! ## Claims -/

/-- Claim C1 counterexample: the dedup list is cleared by every
`LoginResponse` (`handleMessage`, tag 3), so after a reconnect handshake
the same `persistentId` is emitted to the caller again: processing
data("p1"), login-response, data("p1") yields two events carrying "p1",
refuting "at most one event with persistentId == p over the whole process
lifetime". -/
theorem claim_C1_counterexample :
    countPid "p1"
      (processMessages (NewClient "a" "s" none)
        [⟨DataMessageStanzaTag, .dataMessage ⟨"p1", "f", "cat", [], []⟩⟩,
         ⟨LoginResponseTag, .otherObj⟩,
         ⟨DataMessageStanzaTag, .dataMessage ⟨"p1", "f", "cat", [], []⟩⟩]).2 = 2 := by
  rfl

/-- Claim C1 (amended): a `DataMessageStanza` whose `persistentId` has
already been emitted is silently dropped only within the current
inter-`LoginResponse` window: over any stretch of messages that contains
no `LoginResponse`, the event bus receives at most one
DataReceived/NotificationReceived event with a given `persistentId`.
Every `LoginResponse` (including the one completing each reconnect
handshake) clears the dedup list, so the guarantee does not extend across
reconnects. -/
theorem claim_C1_amended (p : String) (c : ClientState) (msgs : List CMessage)
    (h : ∀ m ∈ msgs, m.tag ≠ LoginResponseTag) :
    countPid p (processMessages c msgs).2 ≤ 1 := by
  have hb := processMessages_countPid p msgs c h
  have hle : (if c.persistentIDs.contains p then 0 else 1) ≤ 1 := by
    split <;> omega
  omega

theorem claim_C1_amended_witness :
    countPid "p1"
      (processMessages (NewClient "a" "s" none)
        [⟨DataMessageStanzaTag, .dataMessage ⟨"p1", "f", "cat", [], []⟩⟩,
         ⟨DataMessageStanzaTag, .dataMessage ⟨"p1", "f", "cat", [], []⟩⟩]).2 ≤ 1 :=
  claim_C1_amended "p1" (NewClient "a" "s" none) _ (by decide)

/-- Claim C2 counterexample: a frame with reserved tag 5 (and size 0)
does not decode: `ReadMessage` fails with the unknown-tag error, because
`createEmptyMessage` (and likewise `unmarshalByTag`) has no case for
tag 5. -/
theorem claim_C2_counterexample :
    ReadMessage (fun _ _ => true) NewParser [41, 5, 0] = .error (.unknownTag 5) ∧
    createEmptyMessage 5 = .error (.unknownTag 5) :=
  ⟨rfl, rfl⟩

/-- Claim C2 (amended): only the eight handled tags
{0, 1, 2, 3, 4, 7, 8, 10} decode.  The reserved tags 5, 6, 9 and 11–15
are treated exactly like tags outside 0–15: both `unmarshalByTag` and
`createEmptyMessage` fail with the unknown-tag protocol error, which
terminates the read loop. -/
theorem claim_C2_amended (tag : Nat)
    (h : tag = 5 ∨ tag = 6 ∨ tag = 9 ∨ (11 ≤ tag ∧ tag ≤ 15) ∨ 16 ≤ tag) :
    createEmptyMessage tag = .error (.unknownTag tag) ∧
    ∀ (unmarshalOk : Nat → List Nat → Bool) (data : List Nat),
      unmarshalByTag unmarshalOk tag data = .error (.unknownTag tag) := by
  have hnone : protoTypeForTag tag = none := by
    unfold protoTypeForTag
    split_ifs with h0 h1 h2 h3 h4 h7 h8 h10 <;>
      simp only [HeartbeatPingTag, HeartbeatAckTag, LoginRequestTag, LoginResponseTag,
        CloseTag, IqStanzaTag, DataMessageStanzaTag, StreamErrorStanzaTag] at * <;>
      first
      | rfl
      | omega
  constructor
  · unfold createEmptyMessage
    rw [hnone]
  · intro unmarshalOk data
    unfold unmarshalByTag
    rw [hnone]

theorem claim_C2_amended_witness :
    createEmptyMessage 6 = .error (.unknownTag 6) ∧
    unmarshalByTag (fun _ _ => true) 6 [1, 2] = .error (.unknownTag 6) := by
  have h := claim_C2_amended 6 (by omega)
  exact ⟨h.1, h.2 (fun _ _ => true) [1, 2]⟩

/-- Claim C3 counterexample: `Client.handleMessage` has no case for
`StreamErrorStanzaTag` (10); the stanza falls into the default branch,
which only debug-logs.  Processing a tag-10 message followed by a data
message produces no Error event and still dispatches the next frame, so
the session is not terminated and the stanza is silently ignored. -/
theorem claim_C3_counterexample :
    (processMessages (NewClient "a" "s" none)
      [⟨StreamErrorStanzaTag, .otherObj⟩,
       ⟨DataMessageStanzaTag, .dataMessage ⟨"q1", "f", "cat", [], []⟩⟩]).2
      = [.dataReceived ⟨"q1", "f", "cat", [], []⟩] := by
  rfl

/-- Claim C3 (amended): a received `StreamErrorStanza` (tag 10) is
silently ignored: it reaches `handleMessage`'s default branch, which
emits no event and changes no state, and the read loop goes on reading
the next frame; no Error event is emitted and the session is not
terminated by it. -/
theorem claim_C3_amended (c : ClientState) (obj : ClientObj) (msgs : List CMessage) :
    handleMessage c ⟨StreamErrorStanzaTag, obj⟩ = (c, []) ∧
    processMessages c (⟨StreamErrorStanzaTag, obj⟩ :: msgs) = processMessages c msgs := by
  have h1 : handleMessage c ⟨StreamErrorStanzaTag, obj⟩ = (c, []) := rfl
  refine ⟨h1, ?_⟩
  simp only [processMessages, h1, List.nil_append]

/-- Claim C4 counterexample: on a `Close` (tag 4) the client emits the
server-close Error event but does not terminate: the read loop keeps
reading, and the next frame on the same connection is still dispatched
(here a data message, which is delivered), refuting "after dispatching
the Close message the read loop stops reading further frames". -/
theorem claim_C4_counterexample :
    (processMessages (NewClient "a" "s" none)
      [⟨CloseTag, .otherObj⟩,
       ⟨DataMessageStanzaTag, .dataMessage ⟨"q2", "f", "cat", [], []⟩⟩]).2
      = [.error .serverClose, .dataReceived ⟨"q2", "f", "cat", [], []⟩] := by
  rfl

/-- Claim C4 (amended): on a `Close` message the client emits an Error
event with the server-close reason, but it does not itself terminate the
session: the client state is unchanged and the read loop continues to
read and dispatch further frames; Disconnect follows only when the loop
later exits for another reason (read error, timeout or shutdown). -/
theorem claim_C4_amended (c : ClientState) (obj : ClientObj) (msgs : List CMessage) :
    handleMessage c ⟨CloseTag, obj⟩ = (c, [.error .serverClose]) ∧
    processMessages c (⟨CloseTag, obj⟩ :: msgs) =
      ((processMessages c msgs).1, .error .serverClose :: (processMessages c msgs).2) := by
  have h1 : handleMessage c ⟨CloseTag, obj⟩ = (c, [.error .serverClose]) := rfl
  refine ⟨h1, ?_⟩
  simp only [processMessages, h1, List.singleton_append]

/-- Claim C5: varint round-trip.  For every `x` in `[0, 2 ^ 32)`,
decoding the bytes produced by `EncodeVarint x` with the parser's varint
reader yields `x`, consuming exactly the encoded bytes and leaving any
following bytes untouched. -/
theorem claim_C5_varint_round_trip (x : Nat) (rest : List Nat) (hx : x < 2 ^ 32) :
    readVarint (EncodeVarint x ++ rest) = .ok (x, (EncodeVarint x).length, rest) := by
  have h35 : x < 2 ^ (7 * 4 + 7) := by
    have h2 : (2 : Nat) ^ 32 ≤ 2 ^ (7 * 4 + 7) := by norm_num
    omega
  have h := readVarintAux_encodeLoop 4 x 0 0 rest h35 (by omega) (by norm_num)
  unfold readVarint EncodeVarint
  norm_num at h
  have hx' : x < 4294967296 := by omega
  rw [h, Nat.mod_eq_of_lt hx']

theorem claim_C5_varint_round_trip_witness :
    300 < 2 ^ 32 ∧
    readVarint (EncodeVarint 300 ++ [7]) = .ok (300, (EncodeVarint 300).length, [7]) :=
  ⟨by norm_num, claim_C5_varint_round_trip 300 [7] (by norm_num)⟩

/-- Claim C6: the varint reader consumes one byte at a time, accumulating
the low 7 bits of byte `i` shifted by `7 * i` (in a `uint32`, hence the
`% 2 ^ 32`), and returns as soon as a byte with the high bit clear is
read within the first 5 bytes, consuming exactly those bytes; if all of
the first 5 bytes have the high bit set it fails with the varint-too-long
error without reading any further byte (the result does not depend on
what follows the first 5 bytes). -/
theorem claim_C6_varint_reader_spec :
    (∀ (bs : List Nat) (last : Nat) (rest : List Nat),
        bs.length ≤ 4 → (∀ b ∈ bs, b &&& 128 ≠ 0) → last &&& 128 = 0 →
        readVarint (bs ++ last :: rest) =
          .ok (accumValue (bs ++ [last]) 0 % 2 ^ 32, bs.length + 1, rest)) ∧
    (∀ (bs : List Nat) (rest : List Nat),
        bs.length = 5 → (∀ b ∈ bs, b &&& 128 ≠ 0) →
        readVarint (bs ++ rest) = .error .varintTooLong) := by
  constructor
  · intro bs last rest hlen hbs hlast
    unfold readVarint
    have h := readVarintAux_highBytes bs 0 0 last rest (by omega) hbs hlast (by norm_num)
    norm_num at h
    exact h
  · intro bs rest hlen hbs
    unfold readVarint
    exact readVarintAux_allHigh bs 0 0 0 rest (by omega) hbs

theorem claim_C6_varint_reader_spec_witness :
    readVarint [129, 1, 99] = .ok (129, 2, [99]) ∧
    readVarint [255, 255, 255, 255, 255, 7] = .error .varintTooLong := by
  constructor
  · have h := claim_C6_varint_reader_spec.1 [129] 1 [99] (by norm_num) (by decide) (by decide)
    exact h.trans (by rfl)
  · exact claim_C6_varint_reader_spec.2 [255, 255, 255, 255, 255] [7] rfl (by decide)

/-- Claim C7: for credentials whose `androidId` is numeric
(`strconv.ParseUint` succeeds), the application bytes a session writes
first are exactly the version byte 41, the tag byte 2, the varint of the
marshalled LoginRequest's length, then the LoginRequest bytes — and this
login buffer is the only write `connect` performs, so nothing precedes
it. -/
theorem claim_C7_first_frame (marshal : LoginRequest → List Nat) (c : ClientState) (v : Nat)
    (hparse : parseUint64 c.androidID = some v)
    (hlen : ∀ r : LoginRequest, (marshal r).length < 2 ^ 32) :
    ∃ req, mkLoginRequest c = some req ∧
      connectWrites marshal c =
        some [MCSVersion :: LoginRequestTag ::
          (EncodeVarint (marshal req).length ++ marshal req)] := by
  cases hreq : mkLoginRequest c with
  | none =>
    exfalso
    unfold mkLoginRequest at hreq
    rw [hparse] at hreq
    simp at hreq
  | some req =>
    refine ⟨req, rfl, ?_⟩
    unfold connectWrites buildLoginRequest
    rw [hreq]
    simp only [Nat.mod_eq_of_lt (hlen req)]

theorem claim_C7_first_frame_witness :
    connectWrites (fun _ => [9, 9, 9]) (NewClient "1" "s" none) = some [[41, 2, 3, 9, 9, 9]] := by
  obtain ⟨req, h1, h2⟩ := claim_C7_first_frame (fun _ => [9, 9, 9]) (NewClient "1" "s" none) 1
    rfl (fun r => by norm_num)
  rw [h2]
  rfl

/-- Claim C8 counterexample: `handleMessage` emits `Connect` on every
`LoginResponse` — there is no first-occurrence guard — so two
LoginResponses on the same connection yield two Connect events, refuting
"the Connect event is emitted at most once per session". -/
theorem claim_C8_counterexample :
    countConnect
      (processMessages (NewClient "a" "s" none)
        [⟨LoginResponseTag, .otherObj⟩, ⟨LoginResponseTag, .otherObj⟩]).2 = 2 := by
  rfl

/-- Claim C8 (amended): the client emits one `Connect` event per
`LoginResponse` received: over any message sequence the number of Connect
events equals the number of tag-3 messages; no LoginResponse is ignored,
and each also clears the dedup buffer and resets the retry counter. -/
theorem claim_C8_amended (c : ClientState) (msgs : List CMessage) :
    countConnect (processMessages c msgs).2 =
      (msgs.filter fun m => m.tag == LoginResponseTag).length :=
  processMessages_countConnect msgs c

/-- Claim C9: starting from a fresh client (retry counter 0, cap 15), the
sleep before the k-th consecutive reconnection attempt is `min(k, 15)`
seconds — the backoff sequence is 1, 2, 3, …, 15, 15, 15 — and handling a
`LoginResponse` (the message whose handling emits `Connect`) resets the
retry counter to 0. -/
theorem claim_C9_backoff (c : ClientState)
    (h0 : c.retryCount = 0) (h1 : c.closed = false) (h2 : c.maxRetryTimeout = 15) :
    (∀ n, retrySleeps c n = (List.range n).map fun k => min (k + 1) 15) ∧
    (∀ (c' : ClientState) (obj : ClientObj),
      (handleMessage c' ⟨LoginResponseTag, obj⟩).1.retryCount = 0) := by
  constructor
  · intro n
    rw [retrySleeps_formula n c h1 h2, h0]
    congr 1
    funext k
    omega
  · intro c' obj
    rfl

theorem claim_C9_backoff_witness :
    retrySleeps (NewClient "a" "s" none) 17 =
      [1, 2, 3, 4, 5, 6, 7, 8, 9, 10, 11, 12, 13, 14, 15, 15, 15] ∧
    (handleMessage (NewClient "a" "s" none) ⟨LoginResponseTag, .otherObj⟩).1.retryCount = 0 := by
  have h := claim_C9_backoff (NewClient "a" "s" none) rfl rfl rfl
  exact ⟨(h.1 17).trans (by rfl), h.2 (NewClient "a" "s" none) .otherObj⟩

/-- Claim C10: `NewClient` called with a nil `persistentIDs` slice
normalises it to the empty slice: the resulting client is identical to
one constructed with an explicitly empty slice, and the LoginRequest it
builds carries an empty `received_persistent_id` list. -/
theorem claim_C10_nil_persistent_ids (a t : String) :
    NewClient a t none = NewClient a t (some []) ∧
    (NewClient a t none).persistentIDs = [] ∧
    (∀ req, mkLoginRequest (NewClient a t none) = some req →
      req.receivedPersistentId = []) := by
  refine ⟨rfl, rfl, ?_⟩
  intro req hreq
  unfold mkLoginRequest at hreq
  split at hreq
  · cases hreq
  · injection hreq with hreq
    subst hreq
    rfl

theorem claim_C10_nil_persistent_ids_witness :
    NewClient "7" "s" none = NewClient "7" "s" (some []) ∧
    ∃ req, mkLoginRequest (NewClient "7" "s" none) = some req ∧
      req.receivedPersistentId = [] := by
  have h := claim_C10_nil_persistent_ids "7" "s"
  exact ⟨h.1, ⟨_, rfl, h.2.2 _ rfl⟩⟩

end PushReceiver
